import Mathlib

/-!
Verification of the AES browser utility (hex codec, parameter validation,
cipher adapter error wrapping, UI message queue and output wiring).

JavaScript strings are modelled as lists of UTF-16 code units (`Nat`);
`Uint8Array` values are modelled as lists of `Fin 256`.  Each definition
below is a shallow embedding of the correspondingly named function of the
repository; the file and line of the source are named in the doc comment.
-/

namespace AesBrowser

/-- A JavaScript string: the list of its UTF-16 code units. -/
abbrev JSString := List Nat

/-- Code units of a Lean string literal, used to write concrete JS strings. -/
def strCodes (s : String) : JSString := s.data.map Char.toNat

/-- The contents of a `Uint8Array`. -/
abbrev Bytes := List (Fin 256)

/-- Whether a code unit is one of the whitespace code points removed by the
JavaScript `String.prototype.trim` (tab, line feed, vertical tab, form feed,
carriage return, space, no-break space, line separator, paragraph separator,
byte order mark). -/
def isJsWhitespace (c : Nat) : Bool :=
  decide (c = 9 ∨ c = 10 ∨ c = 11 ∨ c = 12 ∨ c = 13 ∨ c = 32 ∨ c = 160 ∨
    c = 8232 ∨ c = 8233 ∨ c = 65279)

/-- JavaScript `String.prototype.trim`: drop whitespace from both ends. -/
def jsTrim (s : JSString) : JSString :=
  (((s.dropWhile isJsWhitespace).reverse.dropWhile isJsWhitespace)).reverse

/-- Whether a code unit is in the character class `[0-9A-Fa-f]`. -/
def isHexDigitCode (c : Nat) : Bool :=
  decide ((48 ≤ c ∧ c ≤ 57) ∨ (65 ≤ c ∧ c ≤ 70) ∨ (97 ≤ c ∧ c ≤ 102))

/-- Semantics of the anchored regular expression test
`/^[0-9A-Fa-f]+$/.test(s)`: at least one character, all in the hex class. -/
def matchesHexPlus (s : JSString) : Bool :=
  !s.isEmpty && s.all isHexDigitCode

/-- `CryptoUtils.isValidHex` of `src/dist/utils/CryptoUtils.js` lines 11-14:
`/^[0-9A-Fa-f]+$/.test(hex.trim())`. -/
def isValidHex (hex : JSString) : Bool :=
  matchesHexPlus (jsTrim hex)

/-- Numeric value of a hex digit code unit, as computed by
`parseInt(c, 16)` on a single character in the class `[0-9A-Fa-f]`. -/
def hexDigitVal (c : Nat) : Nat :=
  if c ≤ 57 then c - 48 else if c ≤ 70 then c - 55 else c - 87

/-- The code unit of the lowercase hex digit for a value below 16, as
produced by `Number.prototype.toString(16)`. -/
def hexCharCode (d : Nat) : Nat :=
  if d < 10 then 48 + d else 87 + d

/-- JavaScript `toLowerCase` on one ASCII code unit. -/
def jsToLowerCode (c : Nat) : Nat :=
  if 65 ≤ c ∧ c ≤ 90 then c + 32 else c

/-- Storing `parseInt(pair, 16)` into a `Uint8Array` slot: the value of the
two-digit pair, truncated modulo 256 by the typed-array assignment. -/
def byteOfPair (c1 c2 : Nat) : Fin 256 :=
  ⟨(16 * hexDigitVal c1 + hexDigitVal c2) % 256, Nat.mod_lt _ (by decide)⟩

/-- The loop of `hexToUint8Array`: `substr(i, 2)` pairs taken left to right
(a trailing lone character, which the even-length normalisation makes
unreachable, parses as a single digit). -/
def pairsToBytes : JSString → Bytes
  | c1 :: c2 :: rest => byteOfPair c1 c2 :: pairsToBytes rest
  | [c1] => [⟨hexDigitVal c1 % 256, Nat.mod_lt _ (by decide)⟩]
  | [] => []

/-- `CryptoUtils.hexToUint8Array` of `src/dist/utils/CryptoUtils.js` lines
21-33: trim, validate, left-pad odd lengths with the digit 0, decode pairs.
The thrown error is modelled as `none`. -/
def hexToUint8Array (hexString : JSString) : Option Bytes :=
  let cleanHex := jsTrim hexString
  if isValidHex cleanHex then
    let normalizedHex := if cleanHex.length % 2 = 0 then cleanHex else 48 :: cleanHex
    some (pairsToBytes normalizedHex)
  else
    none

/-- One byte rendered by `byte.toString(16).padStart(2, 0-char)`: exactly two
lowercase hex digits for every value below 256. -/
def byteToHexPair (b : Fin 256) : JSString :=
  [hexCharCode (b.val / 16), hexCharCode (b.val % 16)]

/-- `CryptoUtils.uint8ArrayToHex` of `src/dist/utils/CryptoUtils.js` lines
39-43. -/
def uint8ArrayToHex (array : Bytes) : JSString :=
  (array.map byteToHexPair).flatten

/-- Decimal digits of a number, least significant first. -/
def decDigitsRev (n : Nat) : List Nat :=
  if n = 0 then [] else (n % 10) :: decDigitsRev (n / 10)
termination_by n
decreasing_by exact Nat.div_lt_self (Nat.pos_of_ne_zero (by assumption)) (by decide)

/-- Value of a least-significant-first digit list. -/
def decValRev : List Nat → Nat
  | [] => 0
  | d :: ds => d + 10 * decValRev ds

/-- JavaScript decimal rendering of a number (template literal
interpolation of a nonnegative integer). -/
def natToDec (n : Nat) : JSString :=
  if n = 0 then [48] else ((decDigitsRev n).reverse).map (fun d => 48 + d)

/-- A message id of the shape `pre` + decimal counter + separator + decimal
timestamp, as built by the template literals of the two UI managers. -/
def compositeId (pre : JSString) (sep : Nat) (counter now : Nat) : JSString :=
  pre ++ natToDec counter ++ sep :: natToDec now

/-- `CryptoUtils.isValidKeySize` of `src/dist/utils/CryptoUtils.js` lines
87-90: `keyHex.length / 2` is exact (rational) JavaScript number division,
compared against 16, 24 and 32. -/
def isValidKeySize (keyHex : JSString) : Bool :=
  decide ((keyHex.length : ℚ) / 2 = 16) || decide ((keyHex.length : ℚ) / 2 = 24) ||
    decide ((keyHex.length : ℚ) / 2 = 32)

/-- `CryptoUtils.isValidIVSize` of `src/dist/utils/CryptoUtils.js` lines
97-100. -/
def isValidIVSize (ivHex : JSString) (expectedLength : Nat) : Bool :=
  decide ((ivHex.length : ℚ) / 2 = (expectedLength : ℚ))

/-- The `AESConfig` passed to the `AESCrypto` constructor. -/
structure AESConfig where
  algorithm : JSString
  keyLength : Nat
  ivLength : Nat

/-- The default configuration of `src/dist/crypto/AESCrypto.js` lines 11-15. -/
def defaultConfig : AESConfig :=
  ⟨strCodes "AES-CBC", 128, 16⟩

/-- The operation label passed to `validateParameters`. -/
inductive CryptoOperation
  | encrypt
  | decrypt
deriving DecidableEq

/-- Missing key or IV message of `AESCrypto.validateParameters`. -/
def msgMissingParams (operation : CryptoOperation) : JSString :=
  strCodes "Para " ++
    (match operation with
      | .encrypt => strCodes "encriptar"
      | .decrypt => strCodes "decriptar") ++
    strCodes ", forneça uma chave e IV válidos."

/-- Invalid key hex message of `AESCrypto.validateParameters`. -/
def msgKeyNotHex : JSString := strCodes "Chave deve ser uma string hexadecimal válida."

/-- Invalid IV hex message of `AESCrypto.validateParameters`. -/
def msgIvNotHex : JSString := strCodes "IV deve ser uma string hexadecimal válida."

/-- Invalid key size message of `AESCrypto.validateParameters`. -/
def msgInvalidKeySize : JSString :=
  strCodes "Chave deve ter 128, 192 ou 256 bits (16, 24 ou 32 bytes)."

/-- Invalid IV size message of `AESCrypto.validateParameters`, a template
literal interpolating the configured IV length. -/
def msgInvalidIvSize (ivLength : Nat) : JSString :=
  strCodes "IV deve ter " ++ natToDec ivLength ++ strCodes " bytes (" ++
    natToDec (ivLength * 2) ++ strCodes " caracteres hex)."

/-- Empty plaintext message thrown by `AESCrypto.encrypt`. -/
def msgEmptyPlaintext : JSString :=
  strCodes "Texto para encriptação não pode estar vazio."

/-- Empty ciphertext message thrown by `AESCrypto.decrypt`. -/
def msgEmptyCiphertext : JSString :=
  strCodes "Dados para decriptação não podem estar vazios."

/-- Invalid ciphertext hex message thrown by `AESCrypto.decrypt`. -/
def msgCiphertextNotHex : JSString :=
  strCodes "Dados encriptados devem ser uma string hexadecimal válida."

/-- Message of the error thrown by `hexToUint8Array` on invalid input. -/
def msgInvalidHexString : JSString := strCodes "String hexadecimal inválida"

/-- The wrapper text prepended by the catch block of `AESCrypto.encrypt`
(lines 80-85): every caught message m is rethrown as this text followed
by m. -/
def msgEncWrap : JSString := strCodes "Erro na encriptação: "

/-- The wrapper text prepended by the catch block of `AESCrypto.decrypt`
(lines 119-124). -/
def msgDecWrap : JSString := strCodes "Erro na decriptação: "

/-- `AESCrypto.validateParameters` of `src/dist/crypto/AESCrypto.js` lines
38-54.  Throwing is modelled as returning the thrown message in `error`. -/
def validateParameters (cfg : AESConfig) (keyHex ivHex : JSString)
    (operation : CryptoOperation) : Except JSString Unit :=
  if keyHex.isEmpty || ivHex.isEmpty then .error (msgMissingParams operation)
  else if !isValidHex keyHex then .error msgKeyNotHex
  else if !isValidHex ivHex then .error msgIvNotHex
  else if !isValidKeySize keyHex then .error msgInvalidKeySize
  else if !isValidIVSize ivHex cfg.ivLength then .error (msgInvalidIvSize cfg.ivLength)
  else .ok ()

deriving instance DecidableEq for Except

/-- Outcome of one adapter call: the settled promise (`error` carries the
message of the rejection) and whether the platform Web Crypto API
(`importKey` and the cipher primitive) was reached. -/
structure AdapterResult where
  result : Except JSString JSString
  platformCalled : Bool
deriving DecidableEq

/-- `AESCrypto.encrypt` of `src/dist/crypto/AESCrypto.js` lines 62-86.
The platform cipher (`createCryptoKey` followed by `crypto.subtle.encrypt`)
is abstracted by `platform`, the ciphertext bytes it resolves with or the
message of the error it rejects with.  The surrounding try/catch rethrows
every caught message prefixed with `msgEncWrap`. -/
def encrypt (cfg : AESConfig) (platform : Except JSString Bytes)
    (plainText keyHex ivHex : JSString) : AdapterResult :=
  match validateParameters cfg keyHex ivHex .encrypt with
  | .error m => ⟨.error (msgEncWrap ++ m), false⟩
  | .ok _ =>
    if plainText.isEmpty then ⟨.error (msgEncWrap ++ msgEmptyPlaintext), false⟩
    else
      match hexToUint8Array keyHex, hexToUint8Array ivHex with
      | some _, some _ =>
        match platform with
        | .ok encryptedBuffer => ⟨.ok (uint8ArrayToHex encryptedBuffer), true⟩
        | .error m => ⟨.error (msgEncWrap ++ m), true⟩
      | _, _ => ⟨.error (msgEncWrap ++ msgInvalidHexString), false⟩

/-- `AESCrypto.decrypt` of `src/dist/crypto/AESCrypto.js` lines 94-125.
`platform` abstracts `createCryptoKey`, `crypto.subtle.decrypt` and the
(total) UTF-8 text decoding of the result. -/
def decrypt (cfg : AESConfig) (platform : Except JSString JSString)
    (encryptedHex keyHex ivHex : JSString) : AdapterResult :=
  match validateParameters cfg keyHex ivHex .decrypt with
  | .error m => ⟨.error (msgDecWrap ++ m), false⟩
  | .ok _ =>
    if encryptedHex.isEmpty then ⟨.error (msgDecWrap ++ msgEmptyCiphertext), false⟩
    else if !isValidHex encryptedHex then ⟨.error (msgDecWrap ++ msgCiphertextNotHex), false⟩
    else
      match hexToUint8Array keyHex, hexToUint8Array ivHex, hexToUint8Array encryptedHex with
      | some _, some _, some _ =>
        match platform with
        | .ok decryptedText => ⟨.ok decryptedText, true⟩
        | .error m => ⟨.error (msgDecWrap ++ m), true⟩
      | _, _, _ => ⟨.error (msgDecWrap ++ msgInvalidHexString), false⟩

/-- The message kinds of `MessageType` in `src/src/types/index.ts`. -/
inductive MessageType
  | info
  | success
  | error
  | warning
deriving DecidableEq

/-- The `MessageConfig` record of `src/src/types/index.ts`. -/
structure MessageConfig where
  baseDuration : Nat
  durationFactor : Nat
  fadeTimeout : Nat

/-- One message element inserted into the report region: its id, text,
kind, and the display duration scheduled for its removal timer. -/
structure UIMessage where
  id : JSString
  text : JSString
  mtype : MessageType
  duration : Nat

/-- The mutable state of a UI manager relevant to the message subsystem:
the id counter and the children of the report element, in DOM order. -/
structure UIState where
  messageCounter : Nat
  report : List UIMessage

/-- One recorded `addMessage` call: the wall clock value `Date.now()`
returned during the call, the message text, and its kind. -/
structure CallArgs where
  now : Nat
  text : JSString
  mtype : MessageType

/-- JavaScript `split` on a single space character: every space is a
separator, so the result always has at least one (possibly empty) part. -/
def jsSplitSpace : JSString → List JSString
  | [] => [[]]
  | c :: rest =>
    match jsSplitSpace rest with
    | [] => [[c]]
    | w :: ws => if c = 32 then [] :: w :: ws else (c :: w) :: ws

/- The UI manager of the standalone script `src/unnamed/part_002`
(classes `CryptoUtils`/`AESCrypto`/`UIManager` in one file). -/
namespace Script

/-- The `messageConfig` set in the constructor of `part_002` lines
185-189. -/
def messageConfig : MessageConfig := ⟨3000, 50, 300⟩

/-- `UIManager.generateMessageId` of `part_002` lines 271-273, called with
the already incremented counter. -/
def generateMessageId (counter now : Nat) : JSString :=
  compositeId (strCodes "report_") 95 counter now

/-- `UIManager.calculateMessageDuration` of `part_002` lines 278-280:
characters-based policy. -/
def calculateMessageDuration (message : JSString) : Nat :=
  messageConfig.baseDuration + message.length * messageConfig.durationFactor

/-- `UIManager.addMessage` of `part_002` lines 285-313.  The fade-in
timer and the removal timer scheduled after `duration` are modelled by
the stored `duration`; the call returns the updated state and the new
message id. -/
def addMessage (st : UIState) (now : Nat) (message : JSString)
    (mtype : MessageType) : UIState × JSString :=
  let counter := st.messageCounter + 1
  let messageId := generateMessageId counter now
  let duration := calculateMessageDuration message
  (⟨counter, st.report ++ [⟨messageId, message, mtype, duration⟩]⟩, messageId)

/-- `UIManager.removeMessage` of `part_002` lines 318-331:
`getElementById` finds the first element with the id, and the fade-out
plus delayed DOM detach are modelled by their completed effect (removal
of that first element); an absent id leaves everything unchanged. -/
def removeMessage (st : UIState) (messageId : JSString) : UIState :=
  ⟨st.messageCounter, st.report.eraseP (fun m => m.id == messageId)⟩

/-- A session of consecutive `addMessage` calls on one manager instance,
returning the ids handed back to the callers. -/
def addMessages (st : UIState) : List CallArgs → List JSString
  | [] => []
  | call :: rest =>
    let r := addMessage st call.now call.text call.mtype
    r.2 :: addMessages r.1 rest

end Script

/- The `UIManager` class of `src/unnamed/part_004`
(`dist/ui/UIManager.js`). -/
namespace DistUI

/-- The default `messageConfig` of the `part_004` constructor lines
12-15. -/
def messageConfig : MessageConfig := ⟨3000, 50, 300⟩

/-- `UIManager.calculateMessageDuration` of `part_004` lines 369-372:
word-based policy over whitespace-delimited words via `split` on a
space. -/
def calculateMessageDuration (message : JSString) : Nat :=
  let wordCount := (jsSplitSpace message).length
  max messageConfig.baseDuration
    (messageConfig.baseDuration + wordCount * messageConfig.durationFactor)

/-- `UIManager.addMessage` of `part_004` lines 379-397, with the id
template literal of line 380. -/
def addMessage (st : UIState) (now : Nat) (message : JSString)
    (mtype : MessageType) : UIState × JSString :=
  let counter := st.messageCounter + 1
  let messageId := compositeId (strCodes "msg-") 45 counter now
  let duration := calculateMessageDuration message
  (⟨counter, st.report ++ [⟨messageId, message, mtype, duration⟩]⟩, messageId)

/-- `UIManager.removeMessage` of `part_004` lines 402-412: return early
when `getElementById` finds nothing, otherwise fade out and detach the
first element carrying the id (modelled by its completed effect). -/
def removeMessage (st : UIState) (messageId : JSString) : UIState :=
  ⟨st.messageCounter, st.report.eraseP (fun m => m.id == messageId)⟩

/-- A session of consecutive `addMessage` calls on one manager instance. -/
def addMessages (st : UIState) : List CallArgs → List JSString
  | [] => []
  | call :: rest =>
    let r := addMessage st call.now call.text call.mtype
    r.2 :: addMessages r.1 rest

/-- The logical text values of the four data fields managed by
`UIManager`: the key input, the IV input, and the two editable payload
regions. -/
structure DOMFields where
  aesKey : JSString
  iv : JSString
  encryptInput : JSString
  decryptInput : JSString
deriving DecidableEq

/-- The `OutputValues` record of `src/src/types/index.ts`: each field is
present or absent. -/
structure OutputValues where
  aesKey : Option JSString
  iv : Option JSString
  encryptedOutput : Option JSString
  decryptedOutput : Option JSString

/-- `UIManager.updateOutputValues` of `part_004` lines 483-518: every
provided entry is dispatched by key; an encryption result is written into
the decryption input region and a decryption result into the encryption
input region (`setContentEditableValue` is modelled as assignment of the
logical text value).  The four targets are pairwise distinct, so the
iteration order of `Object.entries` is immaterial. -/
def updateOutputValues (fields : DOMFields) (values : OutputValues) : DOMFields :=
  let f1 := match values.aesKey with
    | some v => { fields with aesKey := v }
    | none => fields
  let f2 := match values.iv with
    | some v => { f1 with iv := v }
    | none => f1
  let f3 := match values.encryptedOutput with
    | some v => { f2 with decryptInput := v }
    | none => f2
  match values.decryptedOutput with
  | some v => { f3 with encryptInput := v }
  | none => f3

end DistUI

/-- A 32-character all-zero hex key (16 bytes, AES-128). -/
def key0 : JSString := List.replicate 32 48

/-- A 31-character all-zero hex key: valid hex of odd length. -/
def key31 : JSString := List.replicate 31 48

/-- A 32-character all-zero hex IV (16 bytes). -/
def iv0 : JSString := List.replicate 32 48

/-! Helper lemmas about trimming. -/

theorem dropWhile_of_forall_false {p : Nat → Bool} :
    ∀ {l : JSString}, (∀ c ∈ l, p c = false) → l.dropWhile p = l := by
  intro l h
  cases l with
  | nil => rfl
  | cons a l =>
    rw [List.dropWhile_cons, h a (List.mem_cons_self a l)]
    simp

theorem jsTrim_of_all_not_ws {s : JSString}
    (h : ∀ c ∈ s, isJsWhitespace c = false) : jsTrim s = s := by
  unfold jsTrim
  rw [dropWhile_of_forall_false h,
    dropWhile_of_forall_false (fun c hc => h c (List.mem_reverse.mp hc)),
    List.reverse_reverse]

theorem dropWhile_idem {p : Nat → Bool} :
    ∀ l : JSString, (l.dropWhile p).dropWhile p = l.dropWhile p := by
  intro l
  induction l with
  | nil => rfl
  | cons a l ih =>
    by_cases h : p a <;> simp [List.dropWhile_cons, h, ih]

theorem head?_dropWhile_false {p : Nat → Bool} :
    ∀ l : JSString, ∀ c ∈ (l.dropWhile p).head?, p c = false := by
  intro l
  induction l with
  | nil => intro c hc; simp at hc
  | cons a l ih =>
    intro c hc
    rw [List.dropWhile_cons] at hc
    by_cases h : p a
    · rw [if_pos h] at hc
      exact ih c hc
    · rw [if_neg h] at hc
      simp only [List.head?_cons, Option.mem_def, Option.some.injEq] at hc
      subst hc
      exact Bool.eq_false_iff.mpr h

theorem dropWhile_eq_self_of_head {p : Nat → Bool} {l : JSString}
    (h : ∀ c ∈ l.head?, p c = false) : l.dropWhile p = l := by
  cases l with
  | nil => rfl
  | cons a l =>
    rw [List.dropWhile_cons, h a (by simp)]
    simp

theorem getLast?_dropWhile {p : Nat → Bool} :
    ∀ l : JSString, l.dropWhile p ≠ [] → (l.dropWhile p).getLast? = l.getLast? := by
  intro l
  induction l with
  | nil => intro h; simp at h
  | cons a l ih =>
    intro h
    by_cases hp : p a
    · rw [List.dropWhile_cons, if_pos hp] at h ⊢
      have hl : l ≠ [] := by
        intro he
        subst he
        simp at h
      cases l with
      | nil => exact absurd rfl hl
      | cons b m => rw [ih h, List.getLast?_cons_cons]
    · rw [List.dropWhile_cons, if_neg hp]

theorem jsTrim_idem (s : JSString) : jsTrim (jsTrim s) = jsTrim s := by
  by_cases hu : ((s.dropWhile isJsWhitespace).reverse).dropWhile isJsWhitespace = []
  · have ht : jsTrim s = [] := by
      unfold jsTrim
      rw [hu]
      rfl
    rw [ht]
    rfl
  · have h1 : (jsTrim s).dropWhile isJsWhitespace = jsTrim s := by
      apply dropWhile_eq_self_of_head
      intro c hc
      unfold jsTrim at hc
      rw [List.head?_reverse,
        getLast?_dropWhile ((s.dropWhile isJsWhitespace).reverse) hu,
        List.getLast?_reverse] at hc
      exact head?_dropWhile_false s c hc
    have h3 : (jsTrim s).reverse.dropWhile isJsWhitespace = (jsTrim s).reverse := by
      unfold jsTrim
      rw [List.reverse_reverse]
      exact dropWhile_idem _
    have hdef : jsTrim (jsTrim s) =
        (((jsTrim s).dropWhile isJsWhitespace).reverse.dropWhile isJsWhitespace).reverse := rfl
    rw [hdef, h1, h3, List.reverse_reverse]

/-! Helper lemmas about hex digits and the codec. -/

theorem hexDigit_not_ws {c : Nat} (h : isHexDigitCode c = true) :
    isJsWhitespace c = false := by
  simp only [isHexDigitCode, decide_eq_true_eq] at h
  simp only [isJsWhitespace, decide_eq_false_iff_not]
  omega

theorem hexCharCode_hexDigit {d : Nat} (h : d < 16) :
    isHexDigitCode (hexCharCode d) = true := by
  simp only [isHexDigitCode, hexCharCode, decide_eq_true_eq]
  split_ifs <;> omega

theorem hexDigitVal_hexCharCode {d : Nat} (h : d < 16) :
    hexDigitVal (hexCharCode d) = d := by
  unfold hexDigitVal hexCharCode
  split_ifs <;> omega

theorem hexDigitVal_lt {c : Nat} (h : isHexDigitCode c = true) :
    hexDigitVal c < 16 := by
  simp only [isHexDigitCode, decide_eq_true_eq] at h
  unfold hexDigitVal
  split_ifs <;> omega

theorem hexCharCode_toLower {c : Nat} (h : isHexDigitCode c = true) :
    hexCharCode (hexDigitVal c) = jsToLowerCode c := by
  simp only [isHexDigitCode, decide_eq_true_eq] at h
  unfold hexCharCode hexDigitVal jsToLowerCode
  split_ifs <;> omega

theorem uint8ArrayToHex_cons (b : Fin 256) (bs : Bytes) :
    uint8ArrayToHex (b :: bs) = byteToHexPair b ++ uint8ArrayToHex bs := by
  simp [uint8ArrayToHex]

theorem byteOfPair_hexPair (b : Fin 256) :
    byteOfPair (hexCharCode (b.val / 16)) (hexCharCode (b.val % 16)) = b := by
  have hb := b.isLt
  apply Fin.ext
  show (16 * hexDigitVal (hexCharCode (b.val / 16)) +
      hexDigitVal (hexCharCode (b.val % 16))) % 256 = b.val
  rw [hexDigitVal_hexCharCode (by omega), hexDigitVal_hexCharCode (by omega)]
  omega

theorem pairs_of_hex : ∀ bs : Bytes, pairsToBytes (uint8ArrayToHex bs) = bs
  | [] => rfl
  | b :: bs => by
    rw [uint8ArrayToHex_cons]
    show pairsToBytes (hexCharCode (b.val / 16) :: hexCharCode (b.val % 16) ::
      uint8ArrayToHex bs) = b :: bs
    rw [pairsToBytes, pairs_of_hex bs, byteOfPair_hexPair]

theorem uint8ArrayToHex_all_hex :
    ∀ bs : Bytes, ∀ c ∈ uint8ArrayToHex bs, isHexDigitCode c = true := by
  intro bs
  induction bs with
  | nil => intro c hc; simp [uint8ArrayToHex] at hc
  | cons b rest ih =>
    intro c hc
    rw [uint8ArrayToHex_cons, List.mem_append] at hc
    rcases hc with hc | hc
    · have hb := b.isLt
      simp only [byteToHexPair, List.mem_cons, List.not_mem_nil, or_false] at hc
      rcases hc with rfl | rfl
      · exact hexCharCode_hexDigit (by omega)
      · exact hexCharCode_hexDigit (by omega)
    · exact ih c hc

theorem uint8ArrayToHex_length (bs : Bytes) :
    (uint8ArrayToHex bs).length = 2 * bs.length := by
  induction bs with
  | nil => rfl
  | cons b rest ih =>
    rw [uint8ArrayToHex_cons]
    simp only [List.length_append, ih, byteToHexPair, List.length_cons,
      List.length_nil, List.length_cons]
    omega

theorem hexToUint8Array_eq_of_valid {s : JSString}
    (hval : isValidHex (jsTrim s) = true) :
    hexToUint8Array s =
      some (pairsToBytes
        (if (jsTrim s).length % 2 = 0 then jsTrim s else 48 :: jsTrim s)) := by
  unfold hexToUint8Array
  simp only [hval, if_true]

theorem hexToUint8Array_eq_none {s : JSString}
    (hval : isValidHex (jsTrim s) = false) : hexToUint8Array s = none := by
  unfold hexToUint8Array
  simp only [hval, Bool.false_eq_true, if_false]

theorem byteToHexPair_byteOfPair {c1 c2 : Nat} (h1 : isHexDigitCode c1 = true)
    (h2 : isHexDigitCode c2 = true) :
    byteToHexPair (byteOfPair c1 c2) = [jsToLowerCode c1, jsToLowerCode c2] := by
  have a1 := hexDigitVal_lt h1
  have a2 := hexDigitVal_lt h2
  show [hexCharCode (((16 * hexDigitVal c1 + hexDigitVal c2) % 256) / 16),
    hexCharCode (((16 * hexDigitVal c1 + hexDigitVal c2) % 256) % 16)] = _
  have hv : (16 * hexDigitVal c1 + hexDigitVal c2) % 256 =
      16 * hexDigitVal c1 + hexDigitVal c2 := by omega
  have e1 : (16 * hexDigitVal c1 + hexDigitVal c2) / 16 = hexDigitVal c1 := by omega
  have e2 : (16 * hexDigitVal c1 + hexDigitVal c2) % 16 = hexDigitVal c2 := by omega
  rw [hv, e1, e2, hexCharCode_toLower h1, hexCharCode_toLower h2]

theorem hex_of_pairs : ∀ h : JSString, (∀ c ∈ h, isHexDigitCode c = true) →
    h.length % 2 = 0 → uint8ArrayToHex (pairsToBytes h) = h.map jsToLowerCode
  | [], _, _ => rfl
  | [_], _, hev => by simp at hev
  | c1 :: c2 :: rest, hall, hev => by
    have h1 : isHexDigitCode c1 = true := hall c1 (by simp)
    have h2 : isHexDigitCode c2 = true := hall c2 (by simp)
    have ih := hex_of_pairs rest (fun c hc => hall c (by simp [hc]))
      (by simp only [List.length_cons] at hev; omega)
    rw [pairsToBytes, uint8ArrayToHex_cons, ih,
      byteToHexPair_byteOfPair h1 h2]
    rfl

/-- C1 (amended): the byte-to-hex round-trip holds for every nonempty byte
array, and for every nonempty all-hex string of even length the hex-to-byte
decoding succeeds and re-encodes to the lowercase normalisation of the
input.  (The empty byte array is excluded: its encoding is the empty
string, which `isValidHex` rejects.) -/
theorem c1_amended_roundtrip (b : Bytes) (h : JSString) (hb : b ≠ [])
    (hhex : ∀ c ∈ h, isHexDigitCode c = true) (hne : h ≠ [])
    (heven : h.length % 2 = 0) :
    hexToUint8Array (uint8ArrayToHex b) = some b ∧
    ∃ bs, hexToUint8Array h = some bs ∧
      uint8ArrayToHex bs = h.map jsToLowerCode := by
  constructor
  · have hall := uint8ArrayToHex_all_hex b
    have htrim : jsTrim (uint8ArrayToHex b) = uint8ArrayToHex b :=
      jsTrim_of_all_not_ws (fun c hc => hexDigit_not_ws (hall c hc))
    have hnonempty : uint8ArrayToHex b ≠ [] := by
      intro he
      have hlen := congrArg List.length he
      rw [uint8ArrayToHex_length] at hlen
      simp only [List.length_nil] at hlen
      apply hb
      cases b with
      | nil => rfl
      | cons x xs => simp only [List.length_cons] at hlen; omega
    have hvalid : isValidHex (jsTrim (uint8ArrayToHex b)) = true := by
      rw [htrim]
      unfold isValidHex
      rw [htrim]
      unfold matchesHexPlus
      simp only [Bool.and_eq_true, Bool.not_eq_true', List.isEmpty_eq_false,
        List.all_eq_true]
      exact ⟨hnonempty, hall⟩
    rw [hexToUint8Array_eq_of_valid hvalid, htrim]
    have heven2 : (uint8ArrayToHex b).length % 2 = 0 := by
      rw [uint8ArrayToHex_length]
      omega
    rw [if_pos heven2, pairs_of_hex]
  · have htrim : jsTrim h = h :=
      jsTrim_of_all_not_ws (fun c hc => hexDigit_not_ws (hhex c hc))
    have hvalid : isValidHex (jsTrim h) = true := by
      rw [htrim]
      unfold isValidHex
      rw [htrim]
      unfold matchesHexPlus
      simp only [Bool.and_eq_true, Bool.not_eq_true', List.isEmpty_eq_false,
        List.all_eq_true]
      exact ⟨hne, hhex⟩
    refine ⟨pairsToBytes h, ?_, hex_of_pairs h hhex heven⟩
    rw [hexToUint8Array_eq_of_valid hvalid, htrim, if_pos heven]

/-- C1 counterexample: the claim quantifies over every byte array, but the
empty byte array encodes to the empty string, which `hexToUint8Array`
rejects (it throws instead of returning the empty array). -/
theorem c1_counterexample_empty :
    hexToUint8Array (uint8ArrayToHex ([] : Bytes)) = none := by
  rfl

/-- C1 witness: the amended round-trip instantiated at the one-byte array
0xAB and at the hex string AF. -/
theorem c1_witness :
    hexToUint8Array (uint8ArrayToHex [(171 : Fin 256)]) = some [(171 : Fin 256)] ∧
    ∃ bs, hexToUint8Array [65, 70] = some bs ∧
      uint8ArrayToHex bs = List.map jsToLowerCode [65, 70] :=
  c1_amended_roundtrip [(171 : Fin 256)] [65, 70] (by decide) (by decide)
    (by decide) (by decide)

/-- C4 (amended): `isValidHex` returns true iff the whitespace-trimmed
string is nonempty and every one of its characters is in the hex alphabet.
The empty string (and any all-whitespace string) is rejected, because the
regular expression requires at least one character. -/
theorem c4_amended_isValidHex (s : JSString) :
    isValidHex s = true ↔
      (jsTrim s ≠ [] ∧ ∀ c ∈ jsTrim s, isHexDigitCode c = true) := by
  unfold isValidHex matchesHexPlus
  simp only [Bool.and_eq_true, Bool.not_eq_true', List.isEmpty_eq_false,
    List.all_eq_true]

/-- C4 counterexample: every character of the trimmed empty string
vacuously matches the hex alphabet, yet `isValidHex` returns false on the
empty string, contradicting the claimed iff. -/
theorem c4_counterexample_empty_string :
    (∀ c ∈ jsTrim ([] : JSString), isHexDigitCode c = true) ∧
    isValidHex ([] : JSString) = false := by
  exact ⟨by decide, by decide⟩

/-- C10: `hexToUint8Array` trims before validating, so it agrees with
itself on the trimmed string; whenever the trimmed string matches the hex
alphabet the call succeeds; and an odd-length trimmed string is decoded
with a zero left-padding. -/
theorem c10_trim_before_validate (s : JSString) :
    hexToUint8Array s = hexToUint8Array (jsTrim s) ∧
    (matchesHexPlus (jsTrim s) = true → (hexToUint8Array s).isSome = true) ∧
    (matchesHexPlus (jsTrim s) = true → (jsTrim s).length % 2 = 1 →
      hexToUint8Array s = some (pairsToBytes (48 :: jsTrim s))) := by
  have hidem := jsTrim_idem s
  have e1 : hexToUint8Array s =
      (if isValidHex (jsTrim s) then
        some (pairsToBytes
          (if (jsTrim s).length % 2 = 0 then jsTrim s else 48 :: jsTrim s))
      else none) := rfl
  have e2 : hexToUint8Array (jsTrim s) =
      (if isValidHex (jsTrim (jsTrim s)) then
        some (pairsToBytes
          (if (jsTrim (jsTrim s)).length % 2 = 0 then jsTrim (jsTrim s)
           else 48 :: jsTrim (jsTrim s)))
      else none) := rfl
  refine ⟨?_, ?_, ?_⟩
  · rw [e1, e2, hidem]
  · intro hm
    have hv : isValidHex (jsTrim s) = true := by
      unfold isValidHex
      rw [hidem]
      exact hm
    rw [hexToUint8Array_eq_of_valid hv]
    rfl
  · intro hm hodd
    have hv : isValidHex (jsTrim s) = true := by
      unfold isValidHex
      rw [hidem]
      exact hm
    rw [hexToUint8Array_eq_of_valid hv, if_neg (by omega)]

/-- C10 witness: the string with a space on each side of the odd-length
hex text 0ab decodes as its trimmed, zero-padded form. -/
theorem c10_witness :
    hexToUint8Array (strCodes " 0ab ") = hexToUint8Array (jsTrim (strCodes " 0ab ")) ∧
    (hexToUint8Array (strCodes " 0ab ")).isSome = true ∧
    hexToUint8Array (strCodes " 0ab ") =
      some (pairsToBytes (48 :: jsTrim (strCodes " 0ab "))) := by
  have h := c10_trim_before_validate (strCodes " 0ab ")
  exact ⟨h.1, h.2.1 (by decide), h.2.2 (by decide) (by decide)⟩

/-! Helper lemmas about the validator. -/

theorem isValidHex_ne_nil {s : JSString} (h : isValidHex s = true) : s ≠ [] := by
  intro he
  subst he
  exact absurd h (by decide)

theorem isValidKeySize_iff (k : JSString) :
    isValidKeySize k = true ↔
      (k.length = 32 ∨ k.length = 48 ∨ k.length = 64) := by
  unfold isValidKeySize
  simp only [Bool.or_eq_true, decide_eq_true_eq]
  have h16 : ((k.length : ℚ) / 2 = 16) ↔ k.length = 32 := by
    constructor
    · intro h
      have h2 : (k.length : ℚ) = 32 := by linarith
      exact_mod_cast h2
    · intro h
      rw [h]
      norm_num
  have h24 : ((k.length : ℚ) / 2 = 24) ↔ k.length = 48 := by
    constructor
    · intro h
      have h2 : (k.length : ℚ) = 48 := by linarith
      exact_mod_cast h2
    · intro h
      rw [h]
      norm_num
  have h32 : ((k.length : ℚ) / 2 = 32) ↔ k.length = 64 := by
    constructor
    · intro h
      have h2 : (k.length : ℚ) = 64 := by linarith
      exact_mod_cast h2
    · intro h
      rw [h]
      norm_num
  rw [h16, h24, h32]
  tauto

theorem isValidIVSize16_of_len32 {iv : JSString} (h : iv.length = 32) :
    isValidIVSize iv 16 = true := by
  unfold isValidIVSize
  rw [h]
  norm_num

theorem validateParameters_eval (cfg : AESConfig) (k iv : JSString)
    (op : CryptoOperation) (hk : isValidHex k = true) (hi : isValidHex iv = true)
    (hsz : isValidIVSize iv cfg.ivLength = true) :
    validateParameters cfg k iv op =
      if isValidKeySize k then .ok () else .error msgInvalidKeySize := by
  have hkne : k ≠ [] := isValidHex_ne_nil hk
  have hivne : iv ≠ [] := isValidHex_ne_nil hi
  unfold validateParameters
  rw [List.isEmpty_eq_false.mpr hkne, List.isEmpty_eq_false.mpr hivne,
    hk, hi, hsz]
  simp only [Bool.or_self, Bool.false_eq_true, if_false, Bool.not_true,
    Bool.not_false, if_true]
  by_cases hks : isValidKeySize k
  · rw [if_pos hks]
    simp [hks]
  · have hkf : isValidKeySize k = false := Bool.eq_false_iff.mpr hks
    rw [hkf]
    simp

/-- C2 (amended): under the default configuration, for a valid-hex key and
a 16-byte valid-hex IV, parameter validation fails with the invalid-key-size
error exactly when the raw key string length is not 32, 48 or 64 characters.
Keys of 15 or 17 bytes (30 or 34 hex characters) are rejected, keys of 16,
24 or 32 bytes (32, 48 or 64 hex characters) pass the key-size check.  An
odd-length or whitespace-padded key hex that would decode, after trimming
and zero-padding, to 16, 24 or 32 bytes is still rejected, because the
size check divides the raw string length by two without trimming. -/
theorem c2_amended_key_size (keyHex ivHex : JSString) (op : CryptoOperation)
    (hkey : isValidHex keyHex = true) (hiv : isValidHex ivHex = true)
    (hivlen : ivHex.length = 32) :
    (validateParameters defaultConfig keyHex ivHex op = .error msgInvalidKeySize ↔
      ¬(keyHex.length = 32 ∨ keyHex.length = 48 ∨ keyHex.length = 64)) ∧
    ((keyHex.length = 30 ∨ keyHex.length = 34) →
      validateParameters defaultConfig keyHex ivHex op = .error msgInvalidKeySize) ∧
    ((keyHex.length = 32 ∨ keyHex.length = 48 ∨ keyHex.length = 64) →
      isValidKeySize keyHex = true ∧
      validateParameters defaultConfig keyHex ivHex op = .ok ()) := by
  have hred := validateParameters_eval defaultConfig keyHex ivHex op hkey hiv
    (isValidIVSize16_of_len32 hivlen)
  refine ⟨?_, ?_, ?_⟩
  · rw [hred]
    by_cases hk : isValidKeySize keyHex = true
    · rw [if_pos hk]
      simp only [isValidKeySize_iff] at hk
      constructor
      · intro hcontra
        exact absurd hcontra (by simp)
      · intro hns
        exact absurd hk hns
    · have hkf : isValidKeySize keyHex = false := Bool.eq_false_iff.mpr hk
      rw [hkf]
      simp only [Bool.false_eq_true, if_false]
      constructor
      · intro _
        rw [← isValidKeySize_iff]
        simp [hkf]
      · intro _
        trivial
  · intro hlen
    rw [hred, if_neg]
    intro hk
    rw [isValidKeySize_iff] at hk
    omega
  · intro hlen
    have hk : isValidKeySize keyHex = true := (isValidKeySize_iff keyHex).mpr hlen
    exact ⟨hk, by rw [hred, if_pos hk]⟩

/-- C2 counterexample: a 31-character all-zero key is valid hex and decodes
(after zero padding) to exactly 16 bytes, yet parameter validation fails
with the invalid-key-size error, because the size check uses the raw string
length divided by two (15.5) without decoding. -/
theorem c2_counterexample_odd_length_key :
    isValidHex key31 = true ∧
    (hexToUint8Array key31).map List.length = some 16 ∧
    validateParameters defaultConfig key31 iv0 .encrypt =
      .error msgInvalidKeySize := by
  refine ⟨by decide, by decide, ?_⟩
  rw [validateParameters_eval defaultConfig key31 iv0 .encrypt (by decide)
    (by decide) (isValidIVSize16_of_len32 (by decide))]
  rw [if_neg]
  intro hk
  rw [isValidKeySize_iff] at hk
  revert hk
  decide

/-- C2 witness: the amended statement instantiated at the 31-character
all-zero key and the 16-byte all-zero IV. -/
theorem c2_witness :
    (validateParameters defaultConfig key31 iv0 .encrypt = .error msgInvalidKeySize ↔
      ¬(key31.length = 32 ∨ key31.length = 48 ∨ key31.length = 64)) ∧
    ((key31.length = 30 ∨ key31.length = 34) →
      validateParameters defaultConfig key31 iv0 .encrypt = .error msgInvalidKeySize) ∧
    ((key31.length = 32 ∨ key31.length = 48 ∨ key31.length = 64) →
      isValidKeySize key31 = true ∧
      validateParameters defaultConfig key31 iv0 .encrypt = .ok ()) :=
  c2_amended_key_size key31 iv0 .encrypt (by decide) (by decide) (by decide)

/-! Helper lemmas about the adapter. -/

theorem validateParameters_ok_hex {cfg : AESConfig} {k iv : JSString}
    {op : CryptoOperation} (h : validateParameters cfg k iv op = .ok ()) :
    isValidHex k = true ∧ isValidHex iv = true := by
  unfold validateParameters at h
  split at h
  · simp at h
  · split at h
    next hkv =>
      simp at h
    next hkv =>
      split at h
      next hiv =>
        simp at h
      next hiv =>
        exact ⟨by simpa using hkv, by simpa using hiv⟩

theorem hexToUint8Array_isSome_of_valid {s : JSString}
    (h : isValidHex s = true) : ∃ bs, hexToUint8Array s = some bs := by
  have hv : isValidHex (jsTrim s) = true := by
    unfold isValidHex at h ⊢
    rw [jsTrim_idem]
    exact h
  exact ⟨_, hexToUint8Array_eq_of_valid hv⟩

theorem validateParameters_key0_iv0_ok (op : CryptoOperation) :
    validateParameters defaultConfig key0 iv0 op = .ok () := by
  rw [validateParameters_eval defaultConfig key0 iv0 op (by decide) (by decide)
    (isValidIVSize16_of_len32 (by decide)),
    if_pos ((isValidKeySize_iff key0).mpr (by decide))]

/-- C3 (amended): a platform cipher error with message m is caught by the
adapter and rethrown with the fixed operation-scoped wrapper text followed
by m itself: the raw platform message is included in the rethrown message,
not hidden. -/
theorem c3_amended_error_wrapping (cfg : AESConfig)
    (m plainText keyHex ivHex ctHex : JSString)
    (henc : validateParameters cfg keyHex ivHex .encrypt = .ok ())
    (hdec : validateParameters cfg keyHex ivHex .decrypt = .ok ())
    (hpt : plainText ≠ []) (hct : ctHex ≠ [])
    (hcthex : isValidHex ctHex = true) :
    (encrypt cfg (.error m) plainText keyHex ivHex).result =
      .error (msgEncWrap ++ m) ∧
    (encrypt cfg (.error m) plainText keyHex ivHex).platformCalled = true ∧
    (decrypt cfg (.error m) ctHex keyHex ivHex).result =
      .error (msgDecWrap ++ m) ∧
    (decrypt cfg (.error m) ctHex keyHex ivHex).platformCalled = true := by
  obtain ⟨hk, hi⟩ := validateParameters_ok_hex henc
  obtain ⟨bk, hbk⟩ := hexToUint8Array_isSome_of_valid hk
  obtain ⟨bi, hbi⟩ := hexToUint8Array_isSome_of_valid hi
  obtain ⟨bc, hbc⟩ := hexToUint8Array_isSome_of_valid hcthex
  have he : encrypt cfg (.error m) plainText keyHex ivHex =
      ⟨.error (msgEncWrap ++ m), true⟩ := by
    unfold encrypt
    rw [henc, List.isEmpty_eq_false.mpr hpt, hbk, hbi]
    rfl
  have hd : decrypt cfg (.error m) ctHex keyHex ivHex =
      ⟨.error (msgDecWrap ++ m), true⟩ := by
    unfold decrypt
    rw [hdec, List.isEmpty_eq_false.mpr hct, hcthex, hbk, hbi, hbc]
    rfl
  rw [he, hd]
  exact ⟨rfl, rfl, rfl, rfl⟩

/-- C3 counterexample: with a platform rejection whose message is the text
boom, both adapters rethrow a message that literally contains that raw
platform text (as the suffix after the fixed wrapper text), contradicting
the claim that the rethrown message never contains it. -/
theorem c3_counterexample_raw_message_exposed :
    (encrypt defaultConfig (.error (strCodes "boom")) (strCodes "hi")
        key0 iv0).result = .error (msgEncWrap ++ strCodes "boom") ∧
    (decrypt defaultConfig (.error (strCodes "boom")) (strCodes "00")
        key0 iv0).result = .error (msgDecWrap ++ strCodes "boom") ∧
    (∃ l r, msgEncWrap ++ strCodes "boom" = l ++ strCodes "boom" ++ r) ∧
    (∃ l r, msgDecWrap ++ strCodes "boom" = l ++ strCodes "boom" ++ r) := by
  have hok := validateParameters_key0_iv0_ok
  obtain ⟨bk, hbk⟩ := hexToUint8Array_isSome_of_valid
    (s := key0) (by decide)
  have he : (encrypt defaultConfig (.error (strCodes "boom")) (strCodes "hi")
      key0 iv0).result = .error (msgEncWrap ++ strCodes "boom") := by
    unfold encrypt
    rw [hok .encrypt, hbk]
    rfl
  have hd : (decrypt defaultConfig (.error (strCodes "boom")) (strCodes "00")
      key0 iv0).result = .error (msgDecWrap ++ strCodes "boom") := by
    unfold decrypt
    rw [hok .decrypt, hbk]
    rfl
  exact ⟨he, hd, ⟨msgEncWrap, [], by simp⟩, ⟨msgDecWrap, [], by simp⟩⟩

/-- C3 witness: the amended wrapping statement at the all-zero key and IV,
plaintext hi, ciphertext 00 and platform message x. -/
theorem c3_witness :
    (encrypt defaultConfig (.error (strCodes "x")) (strCodes "hi")
        key0 iv0).result = .error (msgEncWrap ++ strCodes "x") ∧
    (encrypt defaultConfig (.error (strCodes "x")) (strCodes "hi")
        key0 iv0).platformCalled = true ∧
    (decrypt defaultConfig (.error (strCodes "x")) (strCodes "00")
        key0 iv0).result = .error (msgDecWrap ++ strCodes "x") ∧
    (decrypt defaultConfig (.error (strCodes "x")) (strCodes "00")
        key0 iv0).platformCalled = true :=
  c3_amended_error_wrapping defaultConfig (strCodes "x") (strCodes "hi")
    key0 iv0 (strCodes "00") (validateParameters_key0_iv0_ok .encrypt)
    (validateParameters_key0_iv0_ok .decrypt) (by decide) (by decide) (by decide)

/-- C5: with any key and IV that pass parameter validation, encrypting the
empty plaintext fails with the wrapped empty-payload error and the platform
cipher is never invoked, whatever the platform would have answered. -/
theorem c5_empty_plaintext (cfg : AESConfig) (platform : Except JSString Bytes)
    (keyHex ivHex : JSString)
    (hok : validateParameters cfg keyHex ivHex .encrypt = .ok ()) :
    encrypt cfg platform [] keyHex ivHex =
      ⟨.error (msgEncWrap ++ msgEmptyPlaintext), false⟩ := by
  unfold encrypt
  rw [hok]
  rfl

/-- C5 witness: the empty-plaintext behaviour at the all-zero key and IV,
for a platform that would have succeeded. -/
theorem c5_witness :
    encrypt defaultConfig (.ok []) [] key0 iv0 =
      ⟨.error (msgEncWrap ++ msgEmptyPlaintext), false⟩ :=
  c5_empty_plaintext defaultConfig (.ok []) key0 iv0
    (validateParameters_key0_iv0_ok .encrypt)

/-! Helper lemmas about decimal renderings and composite message ids. -/

theorem decValRev_decDigitsRev (n : Nat) :
    decValRev (decDigitsRev n) = n := by
  induction n using Nat.strong_induction_on with
  | _ n ih =>
    rw [decDigitsRev]
    by_cases h : n = 0
    · rw [if_pos h, h]
      rfl
    · rw [if_neg h]
      show n % 10 + 10 * decValRev (decDigitsRev (n / 10)) = n
      rw [ih (n / 10) (Nat.div_lt_self (Nat.pos_of_ne_zero h) (by decide))]
      omega

theorem decDigitsRev_lt_ten (n : Nat) : ∀ d ∈ decDigitsRev n, d < 10 := by
  induction n using Nat.strong_induction_on with
  | _ n ih =>
    intro d hd
    rw [decDigitsRev] at hd
    by_cases h : n = 0
    · rw [if_pos h] at hd
      simp at hd
    · rw [if_neg h] at hd
      rcases List.mem_cons.mp hd with rfl | hd2
      · omega
      · exact ih (n / 10) (Nat.div_lt_self (Nat.pos_of_ne_zero h) (by decide)) d hd2

theorem decode_natToDec (n : Nat) :
    decValRev (((natToDec n).map (fun c => c - 48)).reverse) = n := by
  unfold natToDec
  by_cases h : n = 0
  · rw [if_pos h, h]
    rfl
  · rw [if_neg h]
    simp only [List.map_reverse, List.map_map, List.reverse_reverse]
    have he : ((fun c => c - 48) ∘ fun d => 48 + d) = fun d : Nat => d := by
      funext d
      simp only [Function.comp]
      omega
    rw [he, List.map_id']
    exact decValRev_decDigitsRev n

theorem natToDec_inj {a b : Nat} (h : natToDec a = natToDec b) : a = b := by
  have ha := decode_natToDec a
  rw [h, decode_natToDec b] at ha
  exact ha.symm

theorem natToDec_mem_range (n : Nat) : ∀ c ∈ natToDec n, 48 ≤ c ∧ c ≤ 57 := by
  intro c hc
  unfold natToDec at hc
  by_cases h : n = 0
  · rw [if_pos h] at hc
    simp at hc
    omega
  · rw [if_neg h] at hc
    simp only [List.mem_map, List.mem_reverse] at hc
    obtain ⟨d, hd, rfl⟩ := hc
    have := decDigitsRev_lt_ten n d hd
    omega

theorem append_sep_inj {sep : Nat} :
    ∀ (l1 l2 r1 r2 : List Nat), sep ∉ l1 → sep ∉ l2 →
      l1 ++ sep :: r1 = l2 ++ sep :: r2 → l1 = l2 ∧ r1 = r2 := by
  intro l1
  induction l1 with
  | nil =>
    intro l2 r1 r2 _ h2 heq
    cases l2 with
    | nil => simpa using heq
    | cons x xs =>
      simp only [List.nil_append, List.cons_append, List.cons.injEq] at heq
      exact absurd (show sep ∈ x :: xs by
        rw [heq.1]
        exact List.mem_cons_self x xs) h2
  | cons a as ih =>
    intro l2 r1 r2 h1 h2 heq
    cases l2 with
    | nil =>
      simp only [List.nil_append, List.cons_append, List.cons.injEq] at heq
      exact absurd (show sep ∈ a :: as by
        rw [← heq.1]
        exact List.mem_cons_self a as) h1
    | cons x xs =>
      simp only [List.cons_append, List.cons.injEq] at heq
      obtain ⟨rfl, heq2⟩ := heq
      have h1t : sep ∉ as := fun hm => h1 (List.mem_cons_of_mem _ hm)
      have h2t : sep ∉ xs := fun hm => h2 (List.mem_cons_of_mem _ hm)
      obtain ⟨e1, e2⟩ := ih xs r1 r2 h1t h2t heq2
      exact ⟨by rw [e1], e2⟩

theorem compositeId_inj_counter {pre : JSString} {sep : Nat}
    (hsep : sep < 48 ∨ 57 < sep) {c1 n1 c2 n2 : Nat}
    (h : compositeId pre sep c1 n1 = compositeId pre sep c2 n2) : c1 = c2 := by
  unfold compositeId at h
  rw [List.append_assoc, List.append_assoc] at h
  have h2 := List.append_cancel_left h
  have hns1 : sep ∉ natToDec c1 := fun hm => by
    have := natToDec_mem_range c1 sep hm
    omega
  have hns2 : sep ∉ natToDec c2 := fun hm => by
    have := natToDec_mem_range c2 sep hm
    omega
  exact natToDec_inj (append_sep_inj _ _ _ _ hns1 hns2 h2).1

theorem distUI_mem_addMessages :
    ∀ (calls : List CallArgs) (st : UIState) (i : JSString),
      i ∈ DistUI.addMessages st calls →
      ∃ c n, i = compositeId (strCodes "msg-") 45 c n ∧ st.messageCounter < c := by
  intro calls
  induction calls with
  | nil =>
    intro st i hi
    simp [DistUI.addMessages] at hi
  | cons call rest ih =>
    intro st i hi
    simp only [DistUI.addMessages] at hi
    rcases List.mem_cons.mp hi with rfl | hi2
    · exact ⟨st.messageCounter + 1, call.now, rfl, Nat.lt_succ_self _⟩
    · obtain ⟨c, n, he, hc⟩ := ih _ i hi2
      have hcc : st.messageCounter + 1 < c := hc
      exact ⟨c, n, he, by omega⟩

theorem distUI_addMessages_nodup :
    ∀ (calls : List CallArgs) (st : UIState),
      (DistUI.addMessages st calls).Pairwise (fun a b => a ≠ b) := by
  intro calls
  induction calls with
  | nil =>
    intro st
    exact List.Pairwise.nil
  | cons call rest ih =>
    intro st
    simp only [DistUI.addMessages]
    refine List.Pairwise.cons ?_ (ih _)
    intro b hb
    obtain ⟨c, n, rfl, hc⟩ := distUI_mem_addMessages rest _ b hb
    intro hEq
    have hcc : st.messageCounter + 1 < c := hc
    have := compositeId_inj_counter (by omega) hEq
    omega

theorem script_mem_addMessages :
    ∀ (calls : List CallArgs) (st : UIState) (i : JSString),
      i ∈ Script.addMessages st calls →
      ∃ c n, i = compositeId (strCodes "report_") 95 c n ∧ st.messageCounter < c := by
  intro calls
  induction calls with
  | nil =>
    intro st i hi
    simp [Script.addMessages] at hi
  | cons call rest ih =>
    intro st i hi
    simp only [Script.addMessages] at hi
    rcases List.mem_cons.mp hi with rfl | hi2
    · exact ⟨st.messageCounter + 1, call.now, rfl, Nat.lt_succ_self _⟩
    · obtain ⟨c, n, he, hc⟩ := ih _ i hi2
      have hcc : st.messageCounter + 1 < c := hc
      exact ⟨c, n, he, by omega⟩

theorem script_addMessages_nodup :
    ∀ (calls : List CallArgs) (st : UIState),
      (Script.addMessages st calls).Pairwise (fun a b => a ≠ b) := by
  intro calls
  induction calls with
  | nil =>
    intro st
    exact List.Pairwise.nil
  | cons call rest ih =>
    intro st
    simp only [Script.addMessages]
    refine List.Pairwise.cons ?_ (ih _)
    intro b hb
    obtain ⟨c, n, rfl, hc⟩ := script_mem_addMessages rest _ b hb
    intro hEq
    have hcc : st.messageCounter + 1 < c := hc
    have := compositeId_inj_counter (by omega) hEq
    omega

/-- C6: under the characters-based duration policy of the standalone
script, an added message carries exactly the scheduled duration
baseDuration + length times durationFactor, which is at least
baseDuration, and a 100-character message is scheduled strictly longer
than a 10-character one. -/
theorem c6_characters_duration (st : UIState) (now : Nat) (msg : JSString)
    (t : MessageType) (m100 m10 : JSString)
    (h100 : m100.length = 100) (h10 : m10.length = 10) :
    (∃ um, um ∈ (Script.addMessage st now msg t).1.report ∧
      um.id = (Script.addMessage st now msg t).2 ∧
      um.duration = Script.messageConfig.baseDuration +
        msg.length * Script.messageConfig.durationFactor ∧
      Script.messageConfig.baseDuration ≤ um.duration) ∧
    Script.calculateMessageDuration m10 < Script.calculateMessageDuration m100 := by
  constructor
  · refine ⟨⟨Script.generateMessageId (st.messageCounter + 1) now, msg, t,
      Script.calculateMessageDuration msg⟩, ?_, rfl, rfl, Nat.le_add_right _ _⟩
    show _ ∈ st.report ++ [_]
    simp
  · unfold Script.calculateMessageDuration
    rw [h100, h10]
    decide

/-- C6 witness: a fresh manager, the message ok, and messages of lengths
100 and 10. -/
theorem c6_witness :
    (∃ um, um ∈ (Script.addMessage ⟨0, []⟩ 0 (strCodes "ok") .success).1.report ∧
      um.id = (Script.addMessage ⟨0, []⟩ 0 (strCodes "ok") .success).2 ∧
      um.duration = Script.messageConfig.baseDuration +
        (strCodes "ok").length * Script.messageConfig.durationFactor ∧
      Script.messageConfig.baseDuration ≤ um.duration) ∧
    Script.calculateMessageDuration (List.replicate 10 97) <
      Script.calculateMessageDuration (List.replicate 100 97) :=
  c6_characters_duration ⟨0, []⟩ 0 (strCodes "ok") .success
    (List.replicate 100 97) (List.replicate 10 97) (by decide) (by decide)

theorem eraseP_eraseP_of_countP_le_one {p : UIMessage → Bool} :
    ∀ l : List UIMessage, l.countP p ≤ 1 →
      (l.eraseP p).eraseP p = l.eraseP p := by
  intro l
  induction l with
  | nil =>
    intro _
    rfl
  | cons a l ih =>
    intro h
    by_cases hp : p a
    · rw [List.eraseP_cons_of_pos hp]
      have hc : l.countP p = 0 := by
        rw [List.countP_cons_of_pos _ _ hp] at h
        omega
      exact List.eraseP_of_forall_not (List.countP_eq_zero.mp hc)
    · rw [List.eraseP_cons_of_neg hp, List.eraseP_cons_of_neg hp,
        ih (by rwa [List.countP_cons_of_neg _ _ hp] at h)]

/-- C7: when a message id occurs at most once in the report (as the
counter-based ids guarantee), a second `removeMessage` call with the same
id after the first one is a no-op, and calling `removeMessage` with an id
that is not present leaves the state unchanged (and, the model being a
total function, raises nothing). -/
theorem c7_remove_idempotent (st : UIState) (mid : JSString)
    (huniq : st.report.countP (fun um => um.id == mid) ≤ 1) :
    DistUI.removeMessage (DistUI.removeMessage st mid) mid =
      DistUI.removeMessage st mid ∧
    ((∀ um ∈ st.report, um.id ≠ mid) → DistUI.removeMessage st mid = st) := by
  constructor
  · show (⟨st.messageCounter,
      (st.report.eraseP (fun um => um.id == mid)).eraseP
        (fun um => um.id == mid)⟩ : UIState) = _
    rw [eraseP_eraseP_of_countP_le_one st.report huniq]
    rfl
  · intro habs
    show (⟨st.messageCounter,
      st.report.eraseP (fun um => um.id == mid)⟩ : UIState) = st
    rw [List.eraseP_of_forall_not (fun um hm => by simpa using habs um hm)]

/-- C7 witness: removing a never-added id from a fresh manager twice. -/
theorem c7_witness :
    DistUI.removeMessage (DistUI.removeMessage ⟨0, []⟩ (strCodes "msg-1-0"))
        (strCodes "msg-1-0") =
      DistUI.removeMessage ⟨0, []⟩ (strCodes "msg-1-0") ∧
    ((∀ um ∈ (⟨0, []⟩ : UIState).report, um.id ≠ strCodes "msg-1-0") →
      DistUI.removeMessage ⟨0, []⟩ (strCodes "msg-1-0") = ⟨0, []⟩) :=
  c7_remove_idempotent ⟨0, []⟩ (strCodes "msg-1-0") (by decide)

/-- C8: in any session of consecutive `addMessage` calls on one manager
instance, the returned message ids are pairwise distinct, whatever the
texts and wall-clock values of the calls (in particular with repeated
texts and frozen clocks), for both the word-policy manager and the
standalone-script manager. -/
theorem c8_unique_ids (st1 : UIState) (calls1 : List CallArgs)
    (st2 : UIState) (calls2 : List CallArgs) :
    (DistUI.addMessages st1 calls1).Pairwise (fun a b => a ≠ b) ∧
    (Script.addMessages st2 calls2).Pairwise (fun a b => a ≠ b) :=
  ⟨distUI_addMessages_nodup calls1 st1, script_addMessages_nodup calls2 st2⟩

/-- C9: writing an encryption result stores it in the decryption input
region and changes nothing else; writing a decryption result stores it in
the encryption input region and changes nothing else. -/
theorem c9_cross_wiring (fields : DistUI.DOMFields) (ct pt : JSString) :
    DistUI.updateOutputValues fields ⟨none, none, some ct, none⟩ =
      { fields with decryptInput := ct } ∧
    DistUI.updateOutputValues fields ⟨none, none, none, some pt⟩ =
      { fields with encryptInput := pt } := by
  exact ⟨rfl, rfl⟩

end AesBrowser
